/-
  Verification of the include/merge engine of compose-addons
  (src/compose_addons/includes.py) against its natural-language
  specification.

  Shallow embedding conventions:
  * Python's dynamic values are `Val` (strings, lists, string-keyed
    dicts); Python dicts are association lists with dict semantics
    (unique keys maintained by the operations themselves).
  * Raised exceptions (ConfigError, FetchExternalConfigError,
    IndexError, TypeError, AttributeError) become `Except PyErr`.
  * The unbounded recursion of fetch_include / fetch_includes takes a
    fuel argument; running out of fuel is the distinguished `PyErr.fuel`.
  * `str.split(':')` is modelled by `pysplit` (a direct implementation
    of Python's single-character split), `':' in s` by `hasColon`.
  * The environment functions `os.path.abspath` and
    `urllib.parse.urlparse` are modelled by `abspath` and `urlparse`
    (simplified: `abspath` anchors relative paths at a `cwd` argument,
    `urlparse` handles the `scheme://netloc/path` and bare-path shapes
    used by include references).
  * The transports (file / http / s3 bodies) are parameters of
    `fetch_external_config`; the resolution pipeline is parametric in
    the fetch function the cache wraps, exactly as `ConfigCache` is.
  * `ConfigCache.get`'s aliasing behaviour (`dict(...)` is a shallow
    copy) is modelled separately by an explicit heap of dict objects
    (`Heap`, `HVal`) at the end of the definitions section.
-/
import Mathlib

/-- The exception kinds raised by the code under analysis. -/
inductive PyErr where
  | configError : String → PyErr
  | fetchError : String → PyErr
  | indexError : PyErr
  | typeError : PyErr
  | attributeError : String → PyErr
  | fuel : PyErr
deriving DecidableEq

/-- Python values as they occur in parsed compose documents:
strings, lists and string-keyed dicts. -/
inductive Val where
  | vstr : String → Val
  | vlist : List Val → Val
  | vdict : List (String × Val) → Val

/-- A parsed document or service definition: a Python dict. -/
abbrev Doc := List (String × Val)

/-- `d[k]` lookup (first matching entry; the operations below keep keys
unique, matching Python dict behaviour). -/
def dictGet : Doc → String → Option Val
  | [], _ => none
  | (k', v') :: d, k => if k' = k then some v' else dictGet d k

/-- `d.pop(k, default)`: value (if present) and the dict without it. -/
def dictPop : Doc → String → Option Val × Doc
  | [], _ => (none, [])
  | (k', v') :: d, k =>
    if k' = k then (some v', d)
    else
      let r := dictPop d k
      (r.1, (k', v') :: r.2)

/-- `d[k] = v`: replace the entry in place if the key exists, else
append a new entry (Python dict assignment). -/
def dictInsert : Doc → String → Val → Doc
  | [], k, v => [(k, v)]
  | (k', v') :: d, k, v =>
    if k' = k then (k, v) :: d else (k', v') :: dictInsert d k v

/-- The top-level key list of a document (`d.keys()`). -/
def keys (d : Doc) : List String := d.map Prod.fst

/-- `base.update(frag)`: overlay every entry of `frag` onto `base`. -/
def dictUpdate (base : Doc) (frag : Doc) : Doc :=
  frag.foldl (fun b kv => dictInsert b kv.1 kv.2) base

/-- merge_configs (includes.py lines 128-131): fold each config into the
base with dict update, in list order. -/
def merge_configs (base : Doc) : List Doc → Doc
  | [] => base
  | c :: cs => merge_configs (dictUpdate base c) cs

/-- Python's `s.split(sep)` for a single-character separator, on the
character list of the string. -/
def splitChars (sep : Char) : List Char → List (List Char)
  | [] => [[]]
  | c :: cs =>
    match splitChars sep cs with
    | [] => [[]]
    | g :: gs => if c = sep then [] :: g :: gs else (c :: g) :: gs

/-- Python's `s.split(':')`. -/
def pysplit (s : String) : List String :=
  (splitChars ':' s.data).map String.mk

/-- Python's `':' in s`. -/
def hasColon (s : String) : Bool := decide (':' ∈ s.data)

/-- Error-propagating map, modelling a Python loop that dies at the
first element that raises. -/
def mapE (f : α → Except PyErr β) : List α → Except PyErr (List β)
  | [] => .ok []
  | a :: l =>
    match f a with
    | .error e => .error e
    | .ok b =>
      match mapE f l with
      | .error e => .error e
      | .ok bs => .ok (b :: bs)

/-- Python truthiness for the values of `Val`. -/
def truthy : Val → Bool
  | .vstr s => s ≠ ""
  | .vlist [] => false
  | .vlist (_ :: _) => true
  | .vdict [] => false
  | .vdict (_ :: _) => true

/-- Python iteration over the value of a `links` / `volumes` /
`volumes_from` / `env_file` field: a missing field defaults to `[]`, a
list yields its elements (which must be strings by the time they are
used, else the `.split` attribute access raises), a string yields its
characters, a dict yields its keys. -/
def iterStrs : Option Val → Except PyErr (List String)
  | none => .ok []
  | some (.vlist vs) =>
    mapE (fun v => match v with
      | .vstr s => .ok s
      | _ => .error (.attributeError "split")) vs
  | some (.vstr s) => .ok (s.data.map fun c => String.mk [c])
  | some (.vdict d) => .ok (d.map Prod.fst)

/-- A parsed URL (the `ParseResult` fields the code uses). -/
structure Url where
  scheme : String
  netloc : String
  path : String
deriving DecidableEq

/-- Does the character list start with the given pattern? -/
def startsWithChars : List Char → List Char → Bool
  | [], _ => true
  | _ :: _, [] => false
  | p :: ps, c :: cs => p = c && startsWithChars ps cs

/-- Split a character list around the first occurrence of `://`. -/
def breakScheme : List Char → Option (List Char × List Char)
  | [] => none
  | c :: cs =>
    if startsWithChars [':', '/', '/'] (c :: cs) then some ([], cs.drop 2)
    else
      match breakScheme cs with
      | none => none
      | some (pre, post) => some (c :: pre, post)

/-- Model of `urllib.parse.urlparse` for the reference shapes include
entries use: `scheme://netloc/path` and bare paths (no scheme). The
scheme is lowercased; the netloc runs up to the first `/` after the
`://`; the path is the remainder. -/
def urlparse (s : String) : Url :=
  match breakScheme s.data with
  | none => { scheme := "", netloc := "", path := s }
  | some (schemeChars, rest) =>
    let nl := (splitChars '/' rest).headD []
    { scheme := String.mk (schemeChars.map Char.toLower),
      netloc := String.mk nl,
      path := String.mk (rest.drop nl.length) }

/-- normalize_url (includes.py lines 33-35): parse, and force the
scheme to `file` when absent. -/
def normalize_url (s : String) : Url :=
  let u := urlparse s
  if u.scheme = "" then { u with scheme := "file" } else u

/-- How a `ParseResult` renders in `"%s" % url` (the unsupported-scheme
error interpolates the parse result itself). -/
def urlRepr (u : Url) : String :=
  "ParseResult(scheme=" ++ u.scheme ++ ", netloc=" ++ u.netloc ++
    ", path=" ++ u.path ++ ")"

/-- The fetch-configuration dict handed to remote transports. -/
abbrev FetchConfig := List (String × Val)

/-- The message of the unsupported-scheme ConfigError
(includes.py lines 102-104): it names the scheme and the reference. -/
def unsupportedMsg (u : Url) : String :=
  "Unsupported url scheme \"" ++ u.scheme ++ "\" for " ++ urlRepr u ++ "."

/-- fetch_external_config (includes.py lines 89-104), parametric in the
three transport bodies (get_project_from_http / _file / _s3, which are
out-of-core collaborators: the file transport also runs
resolve_relative_paths before returning). -/
def fetch_external_config
    (getFile : Url → Except PyErr Doc)
    (getHttp : Url → FetchConfig → Except PyErr Doc)
    (getS3 : Url → Except PyErr Doc)
    (fetchConfig : FetchConfig) (u : Url) : Except PyErr Doc :=
  if u.scheme = "http" ∨ u.scheme = "https" then getHttp u fetchConfig
  else if u.scheme = "file" then getFile u
  else if u.scheme = "s3" then getS3 u
  else .error (.configError (unsupportedMsg u))

/-- Is the path absolute (starts with a slash)? -/
def startsSlash (p : String) : Bool :=
  match p.data with
  | '/' :: _ => true
  | _ => false

/-- Model of `os.path.abspath`, anchored at an explicit current
directory (the code relies on `os.chdir` having set it): absolute
paths are left alone, relative ones are joined to the directory. -/
def abspath (cwd : String) (p : String) : String :=
  if startsSlash p then p else cwd ++ "/" ++ p

/-- The per-entry volume transformation of resolve_relative_paths
(includes.py lines 159-164): entries with a `:` get
`abspath(split[0]) + ':' + split[1]` — note only `split[1]`, any
later `:`-separated component is dropped — entries without `:` are
left alone. -/
def normVolume (cwd : String) (volume : String) : String :=
  if hasColon volume then
    abspath cwd ((pysplit volume).headD "") ++ ":" ++ (pysplit volume).getD 1 ""
  else volume

/-- The body of resolve_relative_paths for one service
(includes.py lines 152-177). `extends.file` is attribute access on a
parsed (dict) value, so any truthy `extends` raises AttributeError. -/
def rrpService (cwd : String) (service : Val) : Except PyErr Val :=
  match service with
  | .vdict fields0 =>
    let buildV := (dictPop fields0 "build").1
    let fields1 := (dictPop fields0 "build").2
    match (match buildV with
      | none => .ok fields1
      | some v =>
        if truthy v then
          match v with
          | .vstr b => .ok (dictInsert fields1 "build" (.vstr (abspath cwd b)))
          | _ => .error .typeError
        else .ok fields1 : Except PyErr Doc) with
    | .error e => .error e
    | .ok fields2 =>
      let volsV := (dictPop fields2 "volumes").1
      let fields3 := (dictPop fields2 "volumes").2
      match iterStrs volsV with
      | .error e => .error e
      | .ok vols =>
        let vols1 := vols.map (normVolume cwd)
        let fields4 :=
          if vols1.length > 0 then
            dictInsert fields3 "volumes" (.vlist (vols1.map .vstr))
          else fields3
        let envV := (dictPop fields4 "env_file").1
        let fields5 := (dictPop fields4 "env_file").2
        match iterStrs envV with
        | .error e => .error e
        | .ok envs =>
          let envs1 := envs.map (abspath cwd)
          let fields6 :=
            if envs1.length > 0 then
              dictInsert fields5 "env_file" (.vlist (envs1.map .vstr))
            else fields5
          let extV := (dictPop fields6 "extends").1
          let fields7 := (dictPop fields6 "extends").2
          match extV with
          | none => .ok (.vdict fields7)
          | some v =>
            if truthy v then .error (.attributeError "file")
            else .ok (.vdict fields7)
  | _ => .error (.attributeError "pop")

/-- resolve_relative_paths (includes.py lines 151-179): rewrite the
path fields of every service in place. -/
def resolve_relative_paths (cwd : String) (config : Doc) : Except PyErr Doc :=
  mapE (fun kv =>
    match rrpService cwd kv.2 with
    | .ok v => .ok (kv.1, v)
    | .error e => .error e) config

/-- The body of the links loop of resolve_namespaced_links
(includes.py lines 188-198) for one entry. `link.split(':')[1]` is
evaluated unconditionally, so an entry without `:` raises IndexError. -/
def rewriteLink (servicekeys : List String) (ns : String) (link : String) :
    Except PyErr String :=
  let parts := pysplit link
  let name := parts.headD ""
  match parts.get? 1 with
  | none => .error .indexError
  | some al =>
    if name ∈ servicekeys then
      let name1 := if ns = "" then name else ns ++ "." ++ name
      .ok (if al = "" then name1 else name1 ++ ":" ++ al)
    else .ok link

/-- The body of the volumes_from loop of resolve_namespaced_links
(includes.py lines 203-215) for one entry; here the alias is guarded
by a length check, so entries without `:` are handled. -/
def rewriteVolumeFrom (servicekeys : List String) (ns : String)
    (volume : String) : String :=
  let parts := pysplit volume
  let name := parts.headD ""
  if name ∈ servicekeys then
    let aliasO := if parts.length > 1 then some (parts.getD 1 "") else none
    let name1 := if ns = "" then name else ns ++ "." ++ name
    match aliasO with
    | some al => if al = "" then name1 else name1 ++ ":" ++ al
    | none => name1
  else volume

/-- resolve_namespaced_links' per-service body (includes.py lines
187-217): rewrite `links`, then `volumes_from`, re-adding each field
only when the rewritten sequence is non-empty. -/
def nsLinksService (servicekeys : List String) (ns : String) (service : Val) :
    Except PyErr Val :=
  match service with
  | .vdict fields0 =>
    let linksV := (dictPop fields0 "links").1
    let fields1 := (dictPop fields0 "links").2
    match iterStrs linksV with
    | .error e => .error e
    | .ok links =>
      match mapE (rewriteLink servicekeys ns) links with
      | .error e => .error e
      | .ok links1 =>
        let fields2 :=
          if links1.length > 0 then
            dictInsert fields1 "links" (.vlist (links1.map .vstr))
          else fields1
        let vfV := (dictPop fields2 "volumes_from").1
        let fields3 := (dictPop fields2 "volumes_from").2
        match iterStrs vfV with
        | .error e => .error e
        | .ok vf =>
          let vf1 := vf.map (rewriteVolumeFrom servicekeys ns)
          .ok (.vdict (if vf1.length > 0 then
            dictInsert fields3 "volumes_from" (.vlist (vf1.map .vstr))
          else fields3))
  | _ => .error (.attributeError "pop")

/-- resolve_namespaced_links (includes.py lines 182-219): services whose
key is not in `servicekeys` are skipped; the rest get their `links` and
`volumes_from` entries rewritten in place. -/
def resolve_namespaced_links (config : Doc) (ns : String)
    (servicekeys : List String) : Except PyErr Doc :=
  mapE (fun kv =>
    if kv.1 ∈ servicekeys then
      match nsLinksService servicekeys ns kv.2 with
      | .ok v => .ok (kv.1, v)
      | .error e => .error e
    else .ok kv) config

/-- The fetch function a `ConfigCache` wraps (includes.py lines
112-114, 222-223): it receives the normalized url. -/
abbrev FetchFn := Url → Except PyErr Doc

/-- The cache table of `ConfigCache`, keyed by normalized url. -/
abbrev Cache := List (Url × Doc)

def lookupCache : Cache → Url → Option Doc
  | [], _ => none
  | (u', d) :: c, u => if u' = u then some d else lookupCache c u

/-- ConfigCache.get (includes.py lines 116-119). The pure model
returns the stored top-level mapping itself: this is faithful for
every top-level observation, because the code returns a fresh shallow
copy and all later top-level mutation happens on that copy. (The
nested aliasing that the shallow copy does NOT protect against is
modelled separately by the heap model below.) On a miss the fetched
document is stored; the entry is consed onto the table, which has the
same lookup semantics as Python dict insertion. -/
def cacheGet (f : FetchFn) (cache : Cache) (u : Url) :
    Except PyErr (Doc × Cache) :=
  match lookupCache cache u with
  | some d => .ok (d, cache)
  | none =>
    match f u with
    | .ok d => .ok (d, (u, d) :: cache)
    | .error e => .error e

/-- The effective namespace of one include entry (includes.py line
135): `parent + '.' + namespace if parent else namespace`. -/
def effNs (parent : Option String) (ns : String) : String :=
  match parent with
  | some p => if p = "" then ns else p ++ "." ++ ns
  | none => ns

/-- One step of the key-qualification loop of fetch_include
(includes.py lines 142-146): skip the reserved `include` key, pop the
key and re-insert its value under `namespace + '.' + key`. -/
def renameStep (ns : String) (d : Doc) (k : String) : Doc :=
  if k = "include" then d
  else
    match (dictPop d k).1 with
    | some v => dictInsert (dictPop d k).2 (ns ++ "." ++ k) v
    | none => (dictPop d k).2

/-- The key-qualification loop of fetch_include (includes.py lines
142-146): iterate over a snapshot of the keys. -/
def renameKeys (ns : String) (d : Doc) : Doc :=
  (keys d).foldl (renameStep ns) d

/-- `base_config.pop('include', {}).iteritems()` (includes.py line
135): a missing include key yields no entries; a non-dict value has no
`iteritems`. -/
def includeEntries : Option Val → Except PyErr (List (String × Val))
  | none => .ok []
  | some (.vdict m) => .ok m
  | some _ => .error (.attributeError "iteritems")

/-- The list comprehension of fetch_includes (includes.py line 135):
one include-fetch per entry, threading the cache left to right; the
per-entry fetch is a parameter so that the recursion stays structural.
A non-string reference would fail inside urlparse. -/
def fetchListWith (step : String → String → Cache → Except PyErr (Doc × Cache)) :
    List (String × Val) → Option String → Cache →
    Except PyErr (List Doc × Cache)
  | [], _, cache => .ok ([], cache)
  | (ns, .vstr url) :: rest, parent, cache =>
    match step url (effNs parent ns) cache with
    | .error e => .error e
    | .ok (d, cache1) =>
      match fetchListWith step rest parent cache1 with
      | .error e => .error e
      | .ok (ds, cache2) => .ok (d :: ds, cache2)
  | (_, _) :: _, _, _ => .error .typeError

/-- The body of fetch_includes (includes.py lines 134-135): pop the
include mapping and fetch each entry under its effective namespace, in
order. Returns the fragments, the updated cache, and the base document
with its `include` key removed (the pop mutates the argument). -/
def fetchIncludesBody
    (step : String → String → Cache → Except PyErr (Doc × Cache))
    (cache : Cache) (base : Doc) (parent : Option String) :
    Except PyErr (List Doc × Cache × Doc) :=
  let inclV := (dictPop base "include").1
  let base1 := (dictPop base "include").2
  match includeEntries inclV with
  | .error e => .error e
  | .ok entries =>
    match fetchListWith step entries parent cache with
    | .error e => .error e
    | .ok (frags, cache1) => .ok (frags, cache1, base1)

/-- fetch_include (includes.py lines 138-148): get the (copied) config
from the cache, rewrite its internal references when the namespace is
non-empty using the document's own key set (still containing
`include`), qualify every non-`include` key, resolve the document's
own includes with NO parent namespace, and merge the fragments into
the document. -/
def fetch_include (f : FetchFn) : Nat → Cache → String → String →
    Except PyErr (Doc × Cache)
  | 0, _, _, _ => .error .fuel
  | fuel + 1, cache, url, ns =>
    match cacheGet f cache (normalize_url url) with
    | .error e => .error e
    | .ok (config, cache1) =>
      match (if ns = "" then .ok config
             else resolve_namespaced_links config ns (keys config) :
             Except PyErr Doc) with
      | .error e => .error e
      | .ok config1 =>
        let config2 := renameKeys ns config1
        match fetchIncludesBody
            (fun url1 ns1 cache2 => fetch_include f fuel cache2 url1 ns1)
            cache1 config2 none with
        | .error e => .error e
        | .ok (frags, cache3, config3) =>
          .ok (merge_configs config3 frags, cache3)

/-- fetch_includes (includes.py lines 134-135). -/
def fetch_includes (f : FetchFn) (fuel : Nat) (cache : Cache) (base : Doc)
    (parent : Option String) : Except PyErr (List Doc × Cache × Doc) :=
  fetchIncludesBody
    (fun url1 ns1 cache1 => fetch_include f fuel cache1 url1 ns1)
    cache base parent

/-- include (includes.py lines 221-228), parametric in the fetch
function (the code builds it from fetch_external_config and the fetch
config): drop a vestigial `namespace` key, resolve all includes
starting from a fresh cache and no parent namespace, and merge the
fragments into the base. -/
def include_configs (f : FetchFn) (fuel : Nat) (base : Doc) :
    Except PyErr Doc :=
  let base1 := (dictPop base "namespace").2
  match fetch_includes f fuel [] base1 none with
  | .error e => .error e
  | .ok (frags, _, base2) => .ok (merge_configs base2 frags)

/-! ### Heap model of `ConfigCache.get`'s shallow copy

`ConfigCache.get` returns `dict(self.cache[url])`: a NEW top-level
dict whose values are the SAME nested objects. To reason about
mutation through the returned copies we model dict objects in an
explicit heap: an address indexes a dict object whose values are
either immutable primitives or references to other dict objects. -/

/-- A heap value: an immutable primitive (string) or a reference to a
dict object living in the heap. -/
inductive HVal where
  | prim : String → HVal
  | ref : Nat → HVal
deriving DecidableEq

/-- A dict object: its top-level entries. -/
abbrev Obj := List (String × HVal)

/-- The heap: object at address `i` is the `i`-th element. -/
abbrev Heap := List Obj

def hget (h : Heap) (a : Nat) : Obj := (h.get? a).getD []

def hset (h : Heap) (a : Nat) (o : Obj) : Heap := h.set a o

/-- Allocate a fresh object. -/
def halloc (h : Heap) (o : Obj) : Heap × Nat := (h ++ [o], h.length)

/-- `dict(d)` on the object stored at address `a`: a fresh top-level
dict with the same entries (shared nested references). This is what
`ConfigCache.get` returns for a url whose document is stored at `a`
(includes.py line 119). -/
def cacheCopy (h : Heap) (a : Nat) : Heap × Nat := halloc h (hget h a)

/-- Lookup in a dict object. -/
def objGet : Obj → String → Option HVal
  | [], _ => none
  | (k', v') :: o, k => if k' = k then some v' else objGet o k

/-- Render a dict object's entries with a given value renderer. -/
def expandObjWith (g : HVal → String) : Obj → String
  | [] => ""
  | (k, v) :: o => k ++ " => " ++ g v ++ "; " ++ expandObjWith g o

/-- Structural expansion of a heap value to a canonical string,
following references (fuel-bounded since heaps can be cyclic).
Two documents are structurally equal iff their expansions agree at
every fuel. -/
def expandV (h : Heap) : Nat → HVal → String
  | 0, _ => "..."
  | _ + 1, .prim s => "str " ++ s
  | fuel + 1, .ref a =>
    "dict[" ++ expandObjWith (fun v => expandV h fuel v) (hget h a) ++ "]"

/-- Structural expansion of a dict object's entries. -/
def expandObj (h : Heap) (fuel : Nat) (o : Obj) : String :=
  expandObjWith (fun v => expandV h fuel v) o

/-- The document visible through address `a`. -/
def expandA (h : Heap) (fuel : Nat) (a : Nat) : String :=
  expandV h (fuel + 1) (.ref a)

/-- `v` only references addresses below `n`. -/
def refBoundB (n : Nat) : HVal → Bool
  | .prim _ => true
  | .ref a => a < n

/-- Every value of the object references only addresses below `n`. -/
def objClosedB (n : Nat) (o : Obj) : Bool := o.all fun kv => refBoundB n kv.2

/-- Every object of the heap references only valid addresses. -/
def heapClosedB (h : Heap) : Bool := h.all (objClosedB h.length)

/-! ### Spec-side helpers and concrete scenario fixtures -/

/-- Spec-side description of merge precedence: the value contributed by
the LAST fragment containing the key, if any. -/
def lookupFrags (k : String) : List Doc → Option Val
  | [] => none
  | c :: cs => (lookupFrags k cs).orElse fun _ => dictGet c k

/-- Every document stored in the cache has duplicate-free keys. -/
def CacheInv (c : Cache) : Prop :=
  ∀ u d, lookupCache c u = some d → (keys d).Nodup

/-- Every document the fetch function produces has duplicate-free
keys (Python dicts cannot have duplicate keys). -/
def GoodFetch (f : FetchFn) : Prop :=
  ∀ u d, f u = .ok d → (keys d).Nodup

/-- A fetch function for runs that must never reach a fetch. -/
def failFetch : FetchFn := fun _ => .error (.fetchError "down")

/-- Transport stubs for exercising fetch_external_config. -/
def noFile : Url → Except PyErr Doc := fun _ => .error (.fetchError "no file")

def noHttp : Url → FetchConfig → Except PyErr Doc :=
  fun _ _ => .error (.fetchError "no http")

def noS3 : Url → Except PyErr Doc := fun _ => .error (.fetchError "no s3")

/-- Two-level include scenario (for C8): the base includes "u1" under
namespace `N`; "u1" includes "u2" under namespace `M`; "u2" defines
service `s0`. -/
def c8base (N : String) : Doc :=
  [("base0", .vdict []), ("include", .vdict [(N, .vstr "u1")])]

def c8doc1 (M : String) : Doc :=
  [("w0", .vdict []), ("include", .vdict [(M, .vstr "u2")])]

def c8doc2 : Doc := [("s0", .vdict [])]

def c8fetch (M : String) : FetchFn := fun u =>
  if u = normalize_url "u1" then .ok (c8doc1 M)
  else if u = normalize_url "u2" then .ok c8doc2
  else .error (.fetchError "unreachable")

/-- Fragment for C10: it declares an include mapping (so the reserved
`include` key is a top-level key when reference rewriting runs) and a
service whose links entry names `include`. -/
def c10doc : Doc :=
  [("include", .vdict []),
   ("s", .vdict [("links", .vlist [.vstr "include:x"])])]

def c10fetch : FetchFn := fun _ => .ok c10doc

/-- Concrete heap for C1: the cache's stored document lives at address
0 and maps "svc" to the nested service dict at address 1, whose
"links" value is the string "a:db". -/
def c1heap0 : Heap := [[("svc", .ref 1)], [("links", .prim "a:db")]]

/-- First `ConfigCache.get`: heap after the shallow copy, and the
returned copy's address. -/
def c1copy1 : Heap × Nat := cacheCopy c1heap0 0

/-- Second `ConfigCache.get` for the same location. -/
def c1copy2 : Heap × Nat := cacheCopy c1copy1.1 0

/-- The address of the nested service dict reached through the first
returned copy. -/
def c1svcAddr : Nat :=
  match objGet (hget c1copy2.1 c1copy1.2) "svc" with
  | some (.ref a) => a
  | _ => 0

/-- The in-place links rewriting of resolve_namespaced_links applied to
the nested service object reached through copy 1. -/
def c1heapMut : Heap := hset c1copy2.1 c1svcAddr [("links", .prim "ns.a:db")]

/-! ### Association-list (Python dict) lemmas -/

theorem dictGet_eq_none_iff (d : Doc) (k : String) :
    dictGet d k = none ↔ k ∉ keys d := by
  induction d with
  | nil => simp [dictGet, keys]
  | cons kv d ih =>
    obtain ⟨k', v'⟩ := kv
    by_cases h : k' = k
    · subst h
      simp [dictGet, keys]
    · have h' : k ≠ k' := fun hh => h hh.symm
      simp [dictGet, keys, h, ih, h']

theorem keys_dictInsert (d : Doc) (k : String) (v : Val) :
    keys (dictInsert d k v) = if k ∈ keys d then keys d else keys d ++ [k] := by
  induction d with
  | nil => simp [dictInsert, keys]
  | cons kv d ih =>
    obtain ⟨k', v'⟩ := kv
    by_cases h : k' = k
    · subst h
      simp [dictInsert, keys]
    · have h' : k ≠ k' := fun hh => h hh.symm
      simp only [dictInsert, if_neg h, keys, List.map_cons] at ih ⊢
      rw [ih]
      by_cases hm : k ∈ List.map Prod.fst d
      · simp [List.mem_cons, hm, h']
      · simp [List.mem_cons, hm, h']

theorem mem_keys_dictInsert (d : Doc) (k m : String) (v : Val) :
    m ∈ keys (dictInsert d k v) ↔ m ∈ keys d ∨ m = k := by
  rw [keys_dictInsert]
  by_cases hm : k ∈ keys d
  · simp only [if_pos hm]
    constructor
    · exact fun h => Or.inl h
    · rintro (h | rfl) <;> [exact h; exact hm]
  · simp [if_neg hm]

theorem nodup_keys_dictInsert (d : Doc) (k : String) (v : Val)
    (h : (keys d).Nodup) : (keys (dictInsert d k v)).Nodup := by
  rw [keys_dictInsert]
  by_cases hm : k ∈ keys d
  · simpa [if_pos hm]
  · simpa [if_neg hm, List.nodup_append] using ⟨h, hm⟩

theorem keys_dictPop_sublist (d : Doc) (k : String) :
    List.Sublist (keys (dictPop d k).2) (keys d) := by
  induction d with
  | nil => simp [dictPop, keys]
  | cons kv d ih =>
    obtain ⟨k', v'⟩ := kv
    by_cases h : k' = k
    · simp only [dictPop, if_pos h, keys, List.map_cons]
      exact List.sublist_cons_self _ _
    · simp only [dictPop, if_neg h, keys, List.map_cons]
      exact ih.cons₂ _

theorem nodup_keys_dictPop (d : Doc) (k : String)
    (h : (keys d).Nodup) : (keys (dictPop d k).2).Nodup :=
  h.sublist (keys_dictPop_sublist d k)

theorem not_mem_keys_dictPop (d : Doc) (k : String)
    (h : (keys d).Nodup) : k ∉ keys (dictPop d k).2 := by
  induction d with
  | nil => simp [dictPop, keys]
  | cons kv d ih =>
    obtain ⟨k', v'⟩ := kv
    simp only [keys, List.map_cons, List.nodup_cons] at h
    by_cases hk : k' = k
    · subst hk
      simpa [dictPop, keys] using h.1
    · simp only [dictPop, if_neg hk, keys, List.map_cons, List.mem_cons]
      rintro (rfl | hm)
      · exact hk rfl
      · exact ih h.2 hm

theorem dictPop_fst_eq_dictGet (d : Doc) (k : String) :
    (dictPop d k).1 = dictGet d k := by
  induction d with
  | nil => simp [dictPop, dictGet]
  | cons kv d ih =>
    obtain ⟨k', v'⟩ := kv
    by_cases h : k' = k <;> simp [dictPop, dictGet, h, ih]

theorem dictGet_dictPop_ne (d : Doc) (k k' : String) (h : k ≠ k') :
    dictGet (dictPop d k').2 k = dictGet d k := by
  induction d with
  | nil => simp [dictPop]
  | cons kv d ih =>
    obtain ⟨k1, v1⟩ := kv
    by_cases h1 : k1 = k'
    · subst h1
      have h2 : ¬ k1 = k := fun hh => h hh.symm
      simp [dictPop, dictGet, h2]
    · by_cases h2 : k1 = k
      · subst h2
        simp [dictPop, dictGet, h1]
      · simp [dictPop, dictGet, h1, h2, ih]

theorem dictGet_dictInsert (d : Doc) (k m : String) (v : Val) :
    dictGet (dictInsert d k v) m = if k = m then some v else dictGet d m := by
  induction d with
  | nil => simp [dictInsert, dictGet]
  | cons kv d ih =>
    obtain ⟨k1, v1⟩ := kv
    by_cases h1 : k1 = k
    · subst h1
      by_cases h2 : k1 = m <;> simp [dictInsert, dictGet, h2]
    · by_cases h2 : k1 = m
      · subst h2
        have h3 : ¬ k = k1 := fun hh => h1 hh.symm
        simp [dictInsert, dictGet, h1, h3]
      · simp [dictInsert, dictGet, h1, h2, ih]

theorem dictUpdate_cons (b : Doc) (k1 : String) (v1 : Val) (c : Doc) :
    dictUpdate b ((k1, v1) :: c) = dictUpdate (dictInsert b k1 v1) c := rfl

theorem dictGet_dictUpdate (b c : Doc) (k : String) (hc : (keys c).Nodup) :
    dictGet (dictUpdate b c) k =
      (dictGet c k).orElse fun _ => dictGet b k := by
  induction c generalizing b with
  | nil => simp [dictUpdate, dictGet, Option.orElse]
  | cons kv c ih =>
    obtain ⟨k1, v1⟩ := kv
    simp only [keys, List.map_cons, List.nodup_cons] at hc
    rw [dictUpdate_cons, ih _ hc.2]
    by_cases h : k1 = k
    · subst h
      have hnone : dictGet c k1 = none :=
        (dictGet_eq_none_iff _ _).2 (by simpa [keys] using hc.1)
      simp [dictGet, hnone, dictGet_dictInsert, Option.orElse]
    · simp [dictGet, h, dictGet_dictInsert, Option.orElse]

theorem mem_keys_dictUpdate (b c : Doc) (m : String) :
    m ∈ keys (dictUpdate b c) ↔ m ∈ keys b ∨ m ∈ keys c := by
  induction c generalizing b with
  | nil => simp [dictUpdate, keys]
  | cons kv c ih =>
    obtain ⟨k1, v1⟩ := kv
    rw [dictUpdate_cons, ih, mem_keys_dictInsert]
    simp only [keys, List.map_cons, List.mem_cons]
    tauto

theorem nodup_keys_dictUpdate (b c : Doc) (h : (keys b).Nodup) :
    (keys (dictUpdate b c)).Nodup := by
  induction c generalizing b with
  | nil => exact h
  | cons kv c ih =>
    rw [dictUpdate_cons]
    exact ih _ (nodup_keys_dictInsert _ _ _ h)

theorem mem_keys_merge_configs (b : Doc) (l : List Doc) (m : String) :
    m ∈ keys (merge_configs b l) ↔ m ∈ keys b ∨ ∃ c ∈ l, m ∈ keys c := by
  induction l generalizing b with
  | nil => simp [merge_configs]
  | cons c l ih =>
    rw [merge_configs, ih, mem_keys_dictUpdate]
    simp only [List.mem_cons]
    constructor
    · rintro ((h | h) | ⟨c', hc', h⟩)
      · exact Or.inl h
      · exact Or.inr ⟨c, Or.inl rfl, h⟩
      · exact Or.inr ⟨c', Or.inr hc', h⟩
    · rintro (h | ⟨c', (rfl | hc'), h⟩)
      · exact Or.inl (Or.inl h)
      · exact Or.inl (Or.inr h)
      · exact Or.inr ⟨c', hc', h⟩

theorem nodup_keys_merge_configs (b : Doc) (l : List Doc)
    (h : (keys b).Nodup) : (keys (merge_configs b l)).Nodup := by
  induction l generalizing b with
  | nil => exact h
  | cons c l ih =>
    rw [merge_configs]
    exact ih _ (nodup_keys_dictUpdate _ _ h)

/-! ### String and split lemmas -/

theorem strMk_data (s : String) : String.mk s.data = s := rfl

theorem dot_data : ("." : String).data = ['.'] := rfl

theorem colon_data : (":" : String).data = [':'] := rfl

theorem splitChars_ne_nil (sep : Char) (l : List Char) :
    splitChars sep l ≠ [] := by
  induction l with
  | nil => simp [splitChars]
  | cons c cs ih =>
    simp only [splitChars]
    rcases hs : splitChars sep cs with _ | ⟨g, gs⟩
    · simp
    · by_cases h : c = sep <;> simp [h]

theorem splitChars_no_sep (sep : Char) (l : List Char) (h : sep ∉ l) :
    splitChars sep l = [l] := by
  induction l with
  | nil => rfl
  | cons c cs ih =>
    have h1 : ¬ c = sep := by
      rintro rfl
      exact h (List.mem_cons_self _ _)
    have h2 : sep ∉ cs := fun hm => h (List.mem_cons_of_mem _ hm)
    simp [splitChars, ih h2, h1]

theorem splitChars_append (sep : Char) (l1 l2 : List Char) (h : sep ∉ l1) :
    splitChars sep (l1 ++ sep :: l2) = l1 :: splitChars sep l2 := by
  induction l1 with
  | nil =>
    simp only [List.nil_append, splitChars]
    rcases hs : splitChars sep l2 with _ | ⟨g, gs⟩
    · exact absurd hs (splitChars_ne_nil sep l2)
    · simp
  | cons c l1 ih =>
    have h1 : ¬ c = sep := by
      rintro rfl
      exact h (List.mem_cons_self _ _)
    have h2 : sep ∉ l1 := fun hm => h (List.mem_cons_of_mem _ hm)
    simp only [List.cons_append, splitChars, List.append_eq]
    rw [ih h2]
    simp [h1]

theorem data_append_colon (a b : String) :
    (a ++ ":" ++ b).data = a.data ++ ':' :: b.data := by
  simp [String.data_append, colon_data]

theorem data_append_dot (a b : String) :
    (a ++ "." ++ b).data = a.data ++ '.' :: b.data := by
  simp [String.data_append, dot_data]

theorem pysplit_no_colon (s : String) (h : ':' ∉ s.data) : pysplit s = [s] := by
  simp [pysplit, splitChars_no_sep ':' s.data h, strMk_data]

theorem pysplit_append_colon (a b : String) (h : ':' ∉ a.data) :
    pysplit (a ++ ":" ++ b) = a :: pysplit b := by
  simp only [pysplit, data_append_colon, splitChars_append ':' a.data b.data h,
    List.map_cons, strMk_data]

theorem ne_append_dot (a b c : String) (h : '.' ∉ c.data) :
    c ≠ a ++ "." ++ b := by
  intro hc
  apply h
  rw [hc, data_append_dot]
  exact List.mem_append_right _ (List.mem_cons_self _ _)

/-! ### Claim C1: counterexample (nested mutation is shared) -/

/-- C1 counterexample: calling the cache's get twice (`c1copy1`,
`c1copy2`) yields structurally equal documents, but the in-place links
rewriting applied to the nested service object reached through copy 1
(`c1heapMut`) changes what copy 2 and the cache's stored document
(address 0) expand to — refuting the claim that ANY mutation applied to
one returned Document, including mutating a nested service mapping,
leaves the other returned Document and the stored value unchanged. -/
theorem c1_nested_mutation_is_shared :
    expandA c1copy2.1 3 c1copy1.2 = expandA c1copy2.1 3 c1copy2.2 ∧
    expandA c1heapMut 3 c1copy2.2 ≠ expandA c1copy2.1 3 c1copy2.2 ∧
    expandA c1heapMut 3 0 ≠ expandA c1copy2.1 3 0 :=
  ⟨rfl, by decide, by decide⟩

/-! ### Claim C2: alias-less links entries raise IndexError -/

/-- C2 (code behaviour at the failing input): for a fragment with local
services `a`, `b` where `b` has the alias-less links entry "a",
reference rewriting under namespace "ns" raises IndexError
(`link.split(':')[1]` on a string without ':'), whereas the very same
alias-less entry in `volumes_from` is rewritten to "ns.a" as the claim
describes, and a non-local bare volumes_from entry is left unchanged. -/
theorem c2_bare_link_raises_index_error :
    resolve_namespaced_links
        [("a", .vdict []), ("b", .vdict [("links", .vlist [.vstr "a"])])]
        "ns" ["a", "b"] = .error .indexError ∧
    resolve_namespaced_links
        [("a", .vdict []), ("b", .vdict [("volumes_from", .vlist [.vstr "a"])])]
        "ns" ["a", "b"] =
      .ok [("a", .vdict []),
           ("b", .vdict [("volumes_from", .vlist [.vstr "ns.a"])])] ∧
    rewriteVolumeFrom ["a", "b"] "ns" "c" = "c" :=
  ⟨rfl, rfl, rfl⟩

/-! ### Claim C5: extends handling raises AttributeError -/

/-- C5 (code behaviour at the failing input): path normalization of a
service whose `extends` field is the mapping `{file: "f.yml"}` raises
AttributeError (the code reads `extends.file` as attribute access on a
parsed dict), so the file value is never made absolute and no document
is produced. -/
theorem c5_extends_raises_attribute_error :
    resolve_relative_paths "/base"
        [("s", .vdict [("extends", .vdict [("file", .vstr "f.yml")])])] =
      .error (.attributeError "file") := rfl

theorem pysplit_ne_nil (s : String) : pysplit s ≠ [] := by
  simp only [pysplit, ne_eq, List.map_eq_nil_iff]
  exact splitChars_ne_nil ':' s.data

/-! ### Claim C4: volumes normalization -/

/-- C4 counterexample: for the volume entry "h:c:ro" (host "h",
container "c", mode "ro"), path normalization produces "/base/h:c"
(with cwd "/base"), NOT the claimed "/base/h" ++ ":" ++ "c:ro" that
would preserve everything after the first ':' — the ":ro" component is
dropped. -/
theorem c4_volume_mode_suffix_dropped :
    resolve_relative_paths "/base"
        [("s", .vdict [("volumes", .vlist [.vstr "h:c:ro"])])] =
      .ok [("s", .vdict [("volumes", .vlist [.vstr "/base/h:c"])])] ∧
    ("/base/h:c" : String) ≠ "/base/h" ++ ":" ++ "c:ro" :=
  ⟨rfl, by decide⟩

/-- C4 amended: for a volumes entry with at least one ':', the
host-side component (before the first ':') is replaced by its absolute
form and only the SECOND ':'-separated segment is kept as the
container side — all components after the second ':' are dropped;
entries without ':' are left untouched. -/
theorem c4_volume_normalization_amended (cwd h c r e : String)
    (hh : ':' ∉ h.data) (hc : ':' ∉ c.data) (he : ':' ∉ e.data) :
    normVolume cwd (h ++ ":" ++ (c ++ ":" ++ r)) = abspath cwd h ++ ":" ++ c ∧
    normVolume cwd (h ++ ":" ++ c) = abspath cwd h ++ ":" ++ c ∧
    normVolume cwd e = e := by
  refine ⟨?_, ?_, ?_⟩
  · have hx : hasColon (h ++ ":" ++ (c ++ ":" ++ r)) = true := by
      simp [hasColon, data_append_colon]
    have hs1 : pysplit (h ++ ":" ++ (c ++ ":" ++ r)) = h :: c :: pysplit r := by
      rw [pysplit_append_colon _ _ hh, pysplit_append_colon _ _ hc]
    simp [normVolume, hx, hs1]
  · have hx : hasColon (h ++ ":" ++ c) = true := by
      simp [hasColon, data_append_colon]
    have hs1 : pysplit (h ++ ":" ++ c) = h :: pysplit c := by
      rw [pysplit_append_colon _ _ hh]
    have hs2 : pysplit c = [c] := pysplit_no_colon c hc
    simp [normVolume, hx, hs1, hs2]
  · have hx : hasColon e = false := by
      simp [hasColon, he]
    simp [normVolume, hx]

/-- Witness for the amended C4 at concrete inputs. -/
theorem c4_amended_witness :
    normVolume "/base" ("h" ++ ":" ++ ("c" ++ ":" ++ "ro")) =
      abspath "/base" "h" ++ ":" ++ "c" ∧
    normVolume "/base" ("h" ++ ":" ++ "c") = abspath "/base" "h" ++ ":" ++ "c" ∧
    normVolume "/base" "noColon" = "noColon" :=
  c4_volume_normalization_amended "/base" "h" "c" "ro" "noColon"
    (by decide) (by decide) (by decide)

/-! ### Claim C6: reference rewriting scope -/

/-- C6: in a fragment with local services `a` and `b` where `b` links
"a:db", reference rewriting under a non-empty namespace `ns` rewrites
the entry to `ns ++ ".a:db"`; and any link entry `name ++ ":" ++ al`
whose name part is not among the fragment's own top-level keys is left
exactly unchanged. -/
theorem c6_reference_rewriting_scope (ns : String) (hns : ns ≠ "") :
    resolve_namespaced_links
        [("a", .vdict []), ("b", .vdict [("links", .vlist [.vstr "a:db"])])]
        ns ["a", "b"] =
      .ok [("a", .vdict []),
           ("b", .vdict
             [("links", .vlist [.vstr (ns ++ "." ++ "a" ++ ":" ++ "db")])])] ∧
    (∀ (sk : List String) (name al : String), ':' ∉ name.data → name ∉ sk →
      rewriteLink sk ns (name ++ ":" ++ al) = .ok (name ++ ":" ++ al)) := by
  constructor
  · have hsp : pysplit "a:db" = ["a", "db"] := rfl
    simp [resolve_namespaced_links, mapE, nsLinksService, dictPop, iterStrs,
      rewriteLink, dictInsert, hsp, hns]
  · intro sk name al h1 h2
    have hsp : pysplit (name ++ ":" ++ al) = name :: pysplit al :=
      pysplit_append_colon _ _ h1
    rcases hal : pysplit al with _ | ⟨g, gs⟩
    · exact absurd hal (pysplit_ne_nil al)
    · simp [rewriteLink, hsp, hal, h2]

/-- Witness for C6 at concrete inputs. -/
theorem c6_witness :
    resolve_namespaced_links
        [("a", .vdict []), ("b", .vdict [("links", .vlist [.vstr "a:db"])])]
        "ns" ["a", "b"] =
      .ok [("a", .vdict []),
           ("b", .vdict
             [("links", .vlist [.vstr ("ns" ++ "." ++ "a" ++ ":" ++ "db")])])] ∧
    rewriteLink ["a", "b"] "ns" ("c" ++ ":" ++ "al") = .ok ("c" ++ ":" ++ "al") :=
  ⟨(c6_reference_rewriting_scope "ns" (by decide)).1,
   (c6_reference_rewriting_scope "ns" (by decide)).2 ["a", "b"] "c" "al"
     (by decide) (by decide)⟩

/-! ### Claim C7: merge overlay order -/

/-- C7: merge_configs overlays each fragment's keys onto the base in
fragment-list order: a key's final value is the one contributed by the
last fragment containing it, falling back to the base's value — so
later fragments overwrite earlier fragments and fragments overwrite
base keys. In particular merging base x:1 with fragments [x:2, y:3]
yields exactly x:2, y:3. -/
theorem c7_merge_overlay_order :
    (∀ (base : Doc) (configs : List Doc) (k : String),
        (∀ c ∈ configs, (keys c).Nodup) →
        dictGet (merge_configs base configs) k =
          (lookupFrags k configs).orElse fun _ => dictGet base k) ∧
    merge_configs [("x", .vstr "1")] [[("x", .vstr "2")], [("y", .vstr "3")]] =
      [("x", .vstr "2"), ("y", .vstr "3")] := by
  constructor
  · intro base configs k h
    induction configs generalizing base with
    | nil => simp [merge_configs, lookupFrags, Option.orElse]
    | cons c cs ih =>
      rw [merge_configs, ih _ fun c' hc' => h c' (List.mem_cons_of_mem _ hc')]
      rw [dictGet_dictUpdate _ _ _ (h c (List.mem_cons_self _ _)), lookupFrags]
      cases lookupFrags k cs <;> simp [Option.orElse]
  · rfl

/-- Witness for C7: the general overlay law applied to the concrete
base and fragments of the claim. -/
theorem c7_witness :
    dictGet (merge_configs [("x", .vstr "1")]
        [[("x", .vstr "2")], [("y", .vstr "3")]]) "x" =
      (lookupFrags "x" [[("x", .vstr "2")], [("y", .vstr "3")]]).orElse
        fun _ => dictGet [("x", .vstr "1")] "x" :=
  c7_merge_overlay_order.1 [("x", .vstr "1")]
    [[("x", .vstr "2")], [("y", .vstr "3")]] "x" (by decide)

/-! ### Claim C10: the membership set includes the reserved key -/

/-- C10: the membership set used by reference rewriting is whatever
key list it is handed — fetch_include hands it the fragment's full
top-level key set BEFORE the include key is popped. Part 1: whenever
"include" is in the membership set and the namespace is non-empty, the
links entry "include:x" is rewritten to `ns ++ ".include:x"` even
though `include` names no service. Part 2: running fetch_include on a
fragment that declares an (empty) include mapping and a service `s`
with links ["include:x"] under namespace "ns" produces the service
under "ns.s" with its link rewritten to "ns.include:x". -/
theorem c10_membership_includes_reserved_key :
    (∀ (sk : List String) (ns : String), "include" ∈ sk → ns ≠ "" →
        rewriteLink sk ns "include:x" =
          .ok (ns ++ "." ++ "include" ++ ":" ++ "x")) ∧
    fetch_include c10fetch 2 [] "u" "ns" =
      .ok ([("ns.s", .vdict [("links", .vlist [.vstr "ns.include:x"])])],
           [(normalize_url "u", c10doc)]) := by
  constructor
  · intro sk ns h1 h2
    have hsp : pysplit "include:x" = ["include", "x"] := rfl
    simp [rewriteLink, hsp, h1, h2]
  · rfl

/-- Witness for C10. -/
theorem c10_witness :
    rewriteLink ["include", "s"] "ns" "include:x" =
      .ok ("ns" ++ "." ++ "include" ++ ":" ++ "x") :=
  c10_membership_includes_reserved_key.1 ["include", "s"] "ns"
    (by decide) (by decide)

/-! ### Claim C9: unsupported scheme aborts resolution -/

/-- C9: for any reference whose normalized scheme is none of http,
https, file, s3, fetch_external_config fails immediately with the
unsupported-scheme ConfigError carrying the scheme and the reference
(via `unsupportedMsg`), and a whole resolution run whose base document
declares that reference as its single include entry aborts with that
same error — no merged document is produced. -/
theorem c9_unsupported_scheme_aborts
    (gFile : Url → Except PyErr Doc)
    (gHttp : Url → FetchConfig → Except PyErr Doc)
    (gS3 : Url → Except PyErr Doc)
    (fc : FetchConfig) (s ns : String) (base : Doc) (n : Nat)
    (hs1 : (normalize_url s).scheme ≠ "http")
    (hs2 : (normalize_url s).scheme ≠ "https")
    (hs3 : (normalize_url s).scheme ≠ "file")
    (hs4 : (normalize_url s).scheme ≠ "s3")
    (hb : dictGet base "include" = some (.vdict [(ns, .vstr s)])) :
    fetch_external_config gFile gHttp gS3 fc (normalize_url s) =
      .error (.configError (unsupportedMsg (normalize_url s))) ∧
    include_configs (fun u => fetch_external_config gFile gHttp gS3 fc u)
        (n + 1) base =
      .error (.configError (unsupportedMsg (normalize_url s))) := by
  have hfe : fetch_external_config gFile gHttp gS3 fc (normalize_url s) =
      .error (.configError (unsupportedMsg (normalize_url s))) := by
    simp [fetch_external_config, hs1, hs2, hs3, hs4]
  refine ⟨hfe, ?_⟩
  have h1 : (dictPop (dictPop base "namespace").2 "include").1 =
      some (.vdict [(ns, .vstr s)]) := by
    rw [dictPop_fst_eq_dictGet, dictGet_dictPop_ne _ _ _ (by decide), hb]
  simp only [include_configs, fetch_includes, fetchIncludesBody, h1,
    includeEntries, fetchListWith, effNs, fetch_include, cacheGet,
    lookupCache, hfe]

/-- Witness for C9 at the reference "ftp://host/file.yml". -/
theorem c9_witness :
    fetch_external_config noFile noHttp noS3 []
        (normalize_url "ftp://host/file.yml") =
      .error (.configError (unsupportedMsg (normalize_url "ftp://host/file.yml"))) ∧
    include_configs
        (fun u => fetch_external_config noFile noHttp noS3 [] u) 1
        [("include", .vdict [("a", .vstr "ftp://host/file.yml")])] =
      .error (.configError (unsupportedMsg (normalize_url "ftp://host/file.yml"))) :=
  c9_unsupported_scheme_aborts noFile noHttp noS3 [] "ftp://host/file.yml" "a"
    [("include", .vdict [("a", .vstr "ftp://host/file.yml")])] 0
    (by decide) (by decide) (by decide) (by decide) rfl

/-! ### Claim C8: the nested namespace chain restarts -/

/-- C8: in the two-level scenario (base includes "u1" under namespace
`N`; the fetched fragment includes "u2" under its local namespace `M`;
"u2" defines service "s0"), resolution qualifies the nested fragment's
service as `M ++ ".s0"` — the effective namespace of the nested
include entry is exactly its local namespace `M` — and the
ancestor-chained key `N ++ "." ++ (M ++ ".s0")` is NOT a key of the
result: the recursive fetch_includes call passes no parent namespace.
The disequality hypotheses only rule out degenerate collisions between
the concrete names of the scenario. -/
theorem c8_nested_namespace_restarts (N M : String)
    (hN : N ≠ "") (hM : M ≠ "") (hMl : M ≠ "links") (hMv : M ≠ "volumes_from")
    (h3 : N ++ "." ++ "w0" ≠ M ++ "." ++ "s0")
    (h7 : N ++ "." ++ "w0" ≠ N ++ "." ++ (M ++ "." ++ "s0"))
    (h8 : M ++ "." ++ "s0" ≠ N ++ "." ++ (M ++ "." ++ "s0")) :
    include_configs (c8fetch M) 3 (c8base N) =
      .ok [("base0", .vdict []), (N ++ "." ++ "w0", .vdict []),
           (M ++ "." ++ "s0", .vdict [])] ∧
    dictGet [("base0", Val.vdict []), (N ++ "." ++ "w0", Val.vdict []),
        (M ++ "." ++ "s0", Val.vdict [])]
      (N ++ "." ++ (M ++ "." ++ "s0")) = none := by
  have hInc1 : "include" ≠ N ++ "." ++ "w0" := ne_append_dot _ _ _ (by decide)
  have hInc2 : M ++ "." ++ "s0" ≠ "include" :=
    Ne.symm (ne_append_dot _ _ _ (by decide))
  have hB1 : "base0" ≠ N ++ "." ++ "w0" := ne_append_dot _ _ _ (by decide)
  have hB2 : "base0" ≠ M ++ "." ++ "s0" := ne_append_dot _ _ _ (by decide)
  have hB3 : "base0" ≠ N ++ "." ++ (M ++ "." ++ "s0") :=
    ne_append_dot _ _ _ (by decide)
  constructor
  · simp +decide [include_configs, fetch_includes, fetchIncludesBody, fetchListWith,
      fetch_include, cacheGet, lookupCache, c8fetch, c8base, c8doc1, c8doc2,
      includeEntries, effNs, dictPop, dictInsert, dictGet, keys, renameKeys,
      renameStep, resolve_namespaced_links, nsLinksService, iterStrs, mapE,
      rewriteLink, rewriteVolumeFrom, merge_configs, dictUpdate,
      hN, hM, hMl, hMv, h3, hInc1, hInc2, hB1, hB2]
  · simp [dictGet, hB3, h7, h8]

/-- Witness for C8 at N = "outer", M = "inner". -/
theorem c8_witness :
    include_configs (c8fetch "inner") 3 (c8base "outer") =
      .ok [("base0", .vdict []), ("outer" ++ "." ++ "w0", .vdict []),
           ("inner" ++ "." ++ "s0", .vdict [])] ∧
    dictGet [("base0", Val.vdict []), ("outer" ++ "." ++ "w0", Val.vdict []),
        ("inner" ++ "." ++ "s0", Val.vdict [])]
      ("outer" ++ "." ++ ("inner" ++ "." ++ "s0")) = none :=
  c8_nested_namespace_restarts "outer" "inner" (by decide) (by decide)
    (by decide) (by decide) (by decide) (by decide) (by decide)

/-! ### Invariant lemmas for the resolution pipeline (claim C3) -/

theorem mapE_fst_preserved {f : (String × Val) → Except PyErr (String × Val)}
    (hf : ∀ kv b, f kv = .ok b → b.1 = kv.1) :
    ∀ cfg cfg', mapE f cfg = .ok cfg' → keys cfg' = keys cfg := by
  intro cfg
  induction cfg with
  | nil =>
    intro cfg' h
    simp only [mapE] at h
    cases h
    rfl
  | cons kv l ih =>
    intro cfg' h
    simp only [mapE] at h
    rcases h1 : f kv with e | b <;> rw [h1] at h
    · cases h
    · rcases h2 : mapE f l with e | bs <;> rw [h2] at h
      · cases h
      · cases h
        simp only [keys, List.map_cons]
        rw [hf kv b h1]
        have := ih bs h2
        simp only [keys] at this
        rw [this]

theorem resolve_namespaced_links_keys (cfg : Doc) (ns : String)
    (sk : List String) (cfg' : Doc)
    (h : resolve_namespaced_links cfg ns sk = .ok cfg') :
    keys cfg' = keys cfg := by
  refine mapE_fst_preserved ?_ cfg cfg' h
  intro kv b hkv
  by_cases hm : kv.1 ∈ sk
  · simp only [if_pos hm] at hkv
    rcases h1 : nsLinksService sk ns kv.2 with e | v <;> rw [h1] at hkv
    · cases hkv
    · cases hkv
      rfl
  · simp only [if_neg hm] at hkv
    cases hkv
    rfl

theorem nodup_keys_renameStep (ns : String) (d : Doc) (k : String)
    (h : (keys d).Nodup) : (keys (renameStep ns d k)).Nodup := by
  rw [renameStep]
  by_cases h1 : k = "include"
  · simpa [if_pos h1]
  · rw [if_neg h1]
    rcases h2 : (dictPop d k).1 with _ | v
    · exact nodup_keys_dictPop d k h
    · exact nodup_keys_dictInsert _ _ _ (nodup_keys_dictPop d k h)

theorem nodup_keys_foldl_renameStep (ns : String) (l : List String) :
    ∀ d : Doc, (keys d).Nodup → (keys (l.foldl (renameStep ns) d)).Nodup := by
  induction l with
  | nil => intro d h; exact h
  | cons k l ih =>
    intro d h
    exact ih _ (nodup_keys_renameStep ns d k h)

theorem nodup_keys_renameKeys (ns : String) (d : Doc)
    (h : (keys d).Nodup) : (keys (renameKeys ns d)).Nodup :=
  nodup_keys_foldl_renameStep ns (keys d) d h

theorem cacheGet_ok (f : FetchFn) (cache : Cache) (u : Url) (d : Doc)
    (cache' : Cache) (hc : CacheInv cache) (hf : GoodFetch f)
    (h : cacheGet f cache u = .ok (d, cache')) :
    (keys d).Nodup ∧ CacheInv cache' := by
  rw [cacheGet] at h
  split at h
  · rename_i d0 h1
    simp only [Except.ok.injEq, Prod.mk.injEq] at h
    obtain ⟨rfl, rfl⟩ := h
    exact ⟨hc u d0 h1, hc⟩
  · rename_i h1
    split at h
    · rename_i d0 h2
      simp only [Except.ok.injEq, Prod.mk.injEq] at h
      obtain ⟨rfl, rfl⟩ := h
      refine ⟨hf u d0 h2, ?_⟩
      intro u' d' h'
      rw [lookupCache] at h'
      by_cases h3 : u = u'
      · rw [if_pos h3] at h'
        cases h'
        exact hf u d0 h2
      · rw [if_neg h3] at h'
        exact hc u' d' h'
    · cases h

/-- Generic invariant for the per-entry loop: if every step call
preserves the cache property and produces a document with
duplicate-free keys and no `include` key, so does the whole loop. -/
theorem fetchListWith_good
    (step : String → String → Cache → Except PyErr (Doc × Cache))
    (P : Cache → Prop)
    (hstep : ∀ url ns cache d cache', P cache → step url ns cache = .ok (d, cache') →
      (keys d).Nodup ∧ "include" ∉ keys d ∧ P cache') :
    ∀ (entries : List (String × Val)) (parent : Option String) (cache : Cache)
      (frags : List Doc) (cache' : Cache), P cache →
      fetchListWith step entries parent cache = .ok (frags, cache') →
      (∀ fr ∈ frags, (keys fr).Nodup ∧ "include" ∉ keys fr) ∧ P cache' := by
  intro entries
  induction entries with
  | nil =>
    intro parent cache frags cache' hP h
    simp only [fetchListWith, Except.ok.injEq, Prod.mk.injEq] at h
    obtain ⟨rfl, rfl⟩ := h
    exact ⟨by simp, hP⟩
  | cons kv rest ih =>
    intro parent cache frags cache' hP h
    obtain ⟨ns, v⟩ := kv
    rcases v with url | vs | vd
    · rw [fetchListWith] at h
      split at h
      · cases h
      · rename_i d cache1 h1
        split at h
        · cases h
        · rename_i ds cache2 h2
          simp only [Except.ok.injEq, Prod.mk.injEq] at h
          obtain ⟨rfl, rfl⟩ := h
          obtain ⟨hd1, hd2, hP1⟩ := hstep url (effNs parent ns) cache d cache1 hP h1
          obtain ⟨hds, hP2⟩ := ih parent cache1 ds cache2 hP1 h2
          refine ⟨?_, hP2⟩
          intro fr hfr
          rcases List.mem_cons.mp hfr with rfl | hfr2
          · exact ⟨hd1, hd2⟩
          · exact hds fr hfr2
    · simp [fetchListWith] at h
    · simp [fetchListWith] at h

/-- The invariant for fetchIncludesBody: on success every fragment is
well-keyed and include-free, and the popped base document is too. -/
theorem fetchIncludesBody_good
    (step : String → String → Cache → Except PyErr (Doc × Cache))
    (P : Cache → Prop)
    (hstep : ∀ url ns cache d cache', P cache → step url ns cache = .ok (d, cache') →
      (keys d).Nodup ∧ "include" ∉ keys d ∧ P cache')
    (cache : Cache) (base : Doc) (parent : Option String)
    (frags : List Doc) (cache' : Cache) (base' : Doc)
    (hP : P cache) (hb : (keys base).Nodup)
    (h : fetchIncludesBody step cache base parent = .ok (frags, cache', base')) :
    (∀ fr ∈ frags, (keys fr).Nodup ∧ "include" ∉ keys fr) ∧ P cache' ∧
      (keys base').Nodup ∧ "include" ∉ keys base' := by
  rw [fetchIncludesBody] at h
  split at h
  · cases h
  · rename_i entries h1
    split at h
    · cases h
    · rename_i fs cache1 h2
      simp only [Except.ok.injEq, Prod.mk.injEq] at h
      obtain ⟨rfl, rfl, rfl⟩ := h
      obtain ⟨hfs, hP1⟩ := fetchListWith_good step P hstep entries parent
        cache fs cache1 hP h2
      exact ⟨hfs, hP1, nodup_keys_dictPop base "include" hb,
        not_mem_keys_dictPop base "include" hb⟩

/-- The main induction for C3: a successful fetch_include yields a
document with duplicate-free keys and no `include` key, and preserves
the cache invariant. -/
theorem fetch_include_good (f : FetchFn) (hf : GoodFetch f) :
    ∀ (fuel : Nat) (cache : Cache) (url ns : String) (d : Doc) (cache' : Cache),
      CacheInv cache → fetch_include f fuel cache url ns = .ok (d, cache') →
      (keys d).Nodup ∧ "include" ∉ keys d ∧ CacheInv cache' := by
  intro fuel
  induction fuel with
  | zero =>
    intro cache url ns d cache' hc h
    simp [fetch_include] at h
  | succ n ih =>
    intro cache url ns d cache' hc h
    rw [fetch_include] at h
    split at h
    · cases h
    · rename_i config cache1 h1
      split at h
      · cases h
      · rename_i config1 h2
        dsimp only at h
        split at h
        · cases h
        · rename_i frags cache3 config3 h3
          simp only [Except.ok.injEq, Prod.mk.injEq] at h
          obtain ⟨rfl, rfl⟩ := h
          obtain ⟨hcfg, hc1⟩ :=
            cacheGet_ok f cache (normalize_url url) config cache1 hc hf h1
          have hcfg1 : (keys config1).Nodup := by
            by_cases hns : ns = ""
            · rw [if_pos hns] at h2
              cases h2
              exact hcfg
            · rw [if_neg hns] at h2
              rw [resolve_namespaced_links_keys config ns (keys config) config1 h2]
              exact hcfg
          have hcfg2 : (keys (renameKeys ns config1)).Nodup :=
            nodup_keys_renameKeys ns config1 hcfg1
          obtain ⟨hfrags, hc3, hb3, hbi3⟩ := fetchIncludesBody_good _ CacheInv
            (fun url1 ns1 cache2 d1 cache2' hP h0 =>
              ih cache2 url1 ns1 d1 cache2' hP h0)
            cache1 (renameKeys ns config1) none frags cache3 config3 hc1 hcfg2 h3
          refine ⟨nodup_keys_merge_configs config3 frags hb3, ?_, hc3⟩
          intro hmem
          rcases (mem_keys_merge_configs config3 frags "include").mp hmem with
            hm | ⟨c, hcl, hm⟩
          · exact hbi3 hm
          · exact (hfrags c hcl).2 hm

/-! ### Claim C3: the resolved document's invariant -/

/-- C3: every successful resolution run (in particular every run in
which no two include entries share an effective namespace) produces a
final Document that contains no `include` key and whose service keys
are pairwise distinct, provided the base document and every fetched
document are genuine dicts (duplicate-free top-level keys). This is
proved without any namespace-disjointness hypothesis: the dict
operations of the pipeline maintain both properties unconditionally. -/
theorem c3_resolved_document_invariant (f : FetchFn) (fuel : Nat)
    (base d : Doc) (hbase : (keys base).Nodup) (hf : GoodFetch f)
    (hok : include_configs f fuel base = .ok d) :
    dictGet d "include" = none ∧ (keys d).Nodup := by
  rw [include_configs] at hok
  split at hok
  · cases hok
  · rename_i frags cacheF base2 h1
    simp only [Except.ok.injEq] at hok
    subst hok
    rw [fetch_includes] at h1
    have hb1 : (keys (dictPop base "namespace").2).Nodup :=
      nodup_keys_dictPop _ _ hbase
    obtain ⟨hfrags, _, hb2, hbi2⟩ := fetchIncludesBody_good _ CacheInv
      (fun url1 ns1 cache2 d1 cache2' hP h0 =>
        fetch_include_good f hf fuel cache2 url1 ns1 d1 cache2' hP h0)
      [] (dictPop base "namespace").2 none frags cacheF base2
      (fun u d0 h0 => by simp [lookupCache] at h0) hb1 h1
    constructor
    · rw [dictGet_eq_none_iff]
      intro hmem
      rcases (mem_keys_merge_configs base2 frags "include").mp hmem with
        hm | ⟨c, hcl, hm⟩
      · exact hbi2 hm
      · exact (hfrags c hcl).2 hm
    · exact nodup_keys_merge_configs base2 frags hb2

/-- Witness for C3: resolving a base document with one service and no
includes through a fetch function that is never reached. -/
theorem c3_witness :
    dictGet [("web", Val.vdict [])] "include" = none ∧
      (keys [("web", Val.vdict [])]).Nodup :=
  c3_resolved_document_invariant failFetch 1 [("web", .vdict [])]
    [("web", .vdict [])] (by decide) (fun _ _ h => nomatch h) rfl

/-! ### Heap lemmas for the amended C1 -/

theorem hget_append_left (h tail : Heap) (i : Nat) (hi : i < h.length) :
    hget (h ++ tail) i = hget h i := by
  simp [hget, List.get?_eq_getElem?, List.getElem?_append_left hi]

theorem hget_concat_self (h : Heap) (o : Obj) : hget (h ++ [o]) h.length = o := by
  simp [hget, List.get?_eq_getElem?, List.getElem?_concat_length]

theorem hget_set_ne (h : Heap) (a i : Nat) (o : Obj) (hne : a ≠ i) :
    hget (hset h a o) i = hget h i := by
  simp [hget, hset, List.get?_eq_getElem?, List.getElem?_set_ne hne]

theorem hget_mem (h : Heap) (i : Nat) (hi : i < h.length) : hget h i ∈ h := by
  simp only [hget, List.get?_eq_getElem?, List.getElem?_eq_getElem hi,
    Option.getD_some]
  exact List.getElem_mem hi

theorem heapClosedB_obj (h : Heap) (i : Nat) (hi : i < h.length)
    (hcl : heapClosedB h = true) : objClosedB h.length (hget h i) = true := by
  simp only [heapClosedB, List.all_eq_true] at hcl
  exact hcl _ (hget_mem h i hi)

theorem expandObjWith_congr (g1 g2 : HVal → String) (n0 : Nat)
    (hg : ∀ v, refBoundB n0 v = true → g1 v = g2 v) :
    ∀ o, objClosedB n0 o = true → expandObjWith g1 o = expandObjWith g2 o := by
  intro o
  induction o with
  | nil => intro _; rfl
  | cons kv o ih =>
    obtain ⟨k, v⟩ := kv
    intro ho
    simp only [objClosedB, List.all_cons, Bool.and_eq_true] at ho
    simp only [expandObjWith]
    rw [hg v ho.1, ih ho.2]

/-- Frame property of the expansion: changing the heap only at or
above `n0` (and only reading it at addresses below `n0`, by closure)
does not change what any `n0`-bounded value expands to. -/
theorem expand_frame (n0 : Nat) (h h' : Heap)
    (hag : ∀ i, i < n0 → hget h i = hget h' i)
    (hcl : ∀ i, i < n0 → objClosedB n0 (hget h i) = true) :
    ∀ (fuel : Nat) (v : HVal), refBoundB n0 v = true →
      expandV h fuel v = expandV h' fuel v := by
  intro fuel
  induction fuel with
  | zero => intro v _; rfl
  | succ n ihn =>
    intro v hv
    cases v with
    | prim s => rfl
    | ref a =>
      have ha : a < n0 := by simpa [refBoundB] using hv
      have hobj : objClosedB n0 (hget h a) = true := hcl a ha
      simp only [expandV]
      rw [← hag a ha]
      exact congrArg (fun x => "dict[" ++ x ++ "]")
        (expandObjWith_congr _ _ n0 (fun v hv => ihn v hv) (hget h a) hobj)

/-! ### Claim C1 (amended): top-level independence of cache copies -/

/-- C1 amended: two `ConfigCache.get` calls for the same location
(modelled as two shallow copies `(h1, a1)`, `(h2, a2)` of the stored
document at address `s`) yield structurally equal documents, and
replacing the whole top-level mapping of the first copy — which covers
adding or removing any top-level key — changes neither what the second
copy nor what the cache's stored document expands to. (The nested
objects, by contrast, are shared: see the C1 counterexample.) -/
theorem c1_cache_shallow_copy_top_level_independent
    (h0 : Heap) (s : Nat) (newObj : Obj) (fuel : Nat)
    (h1 : Heap) (a1 : Nat) (h2 : Heap) (a2 : Nat)
    (hs : s < h0.length) (hcl : heapClosedB h0 = true)
    (hc1 : cacheCopy h0 s = (h1, a1)) (hc2 : cacheCopy h1 s = (h2, a2)) :
    expandA h2 fuel a1 = expandA h2 fuel a2 ∧
    expandA (hset h2 a1 newObj) fuel a2 = expandA h2 fuel a2 ∧
    expandA (hset h2 a1 newObj) fuel s = expandA h2 fuel s := by
  simp only [cacheCopy, halloc, Prod.mk.injEq] at hc1 hc2
  obtain ⟨rfl, rfl⟩ := hc1
  obtain ⟨rfl, rfl⟩ := hc2
  have hlt1 : h0.length < (h0 ++ [hget h0 s]).length := by simp
  have hg1 : hget (h0 ++ [hget h0 s]) s = hget h0 s := hget_append_left _ _ _ hs
  have hA1 : hget (h0 ++ [hget h0 s] ++ [hget (h0 ++ [hget h0 s]) s]) h0.length
      = hget h0 s := by
    rw [hget_append_left _ _ _ hlt1]
    exact hget_concat_self h0 _
  have hA2 : hget (h0 ++ [hget h0 s] ++ [hget (h0 ++ [hget h0 s]) s])
      (h0 ++ [hget h0 s]).length = hget h0 s := by
    rw [hget_concat_self]
    exact hg1
  have hne12 : h0.length ≠ (h0 ++ [hget h0 s]).length := by simp
  have hg2 : ∀ i, i < h0.length →
      hget (h0 ++ [hget h0 s] ++ [hget (h0 ++ [hget h0 s]) s]) i = hget h0 i := by
    intro i hi
    rw [hget_append_left _ _ _ (lt_trans hi hlt1), hget_append_left _ _ _ hi]
  have hag : ∀ i, i < h0.length →
      hget (hset (h0 ++ [hget h0 s] ++ [hget (h0 ++ [hget h0 s]) s])
        h0.length newObj) i
        = hget (h0 ++ [hget h0 s] ++ [hget (h0 ++ [hget h0 s]) s]) i := by
    intro i hi
    exact hget_set_ne _ _ _ _ (by omega)
  have hclA : ∀ i, i < h0.length →
      objClosedB h0.length
        (hget (hset (h0 ++ [hget h0 s] ++ [hget (h0 ++ [hget h0 s]) s])
          h0.length newObj) i) = true := by
    intro i hi
    rw [hag i hi, hg2 i hi]
    exact heapClosedB_obj h0 i hi hcl
  refine ⟨?_, ?_, ?_⟩
  · simp only [expandA, expandV]
    rw [hA1, hA2]
  · simp only [expandA, expandV]
    rw [hget_set_ne _ _ _ _ hne12, hA2]
    exact congrArg (fun x => "dict[" ++ x ++ "]")
      (expandObjWith_congr _ _ h0.length
        (fun v hv => expand_frame h0.length _ _ hag hclA fuel v hv)
        (hget h0 s) (heapClosedB_obj h0 s hs hcl))
  · exact expand_frame h0.length _ _ hag hclA (fuel + 1) (.ref s)
      (by simp [refBoundB, hs])

/-- Witness for the amended C1: the concrete C1 heap, with a top-level
mutation (replacing the first copy's top-level mapping). -/
theorem c1_amended_witness :
    expandA c1copy2.1 2 c1copy1.2 = expandA c1copy2.1 2 c1copy2.2 ∧
    expandA (hset c1copy2.1 c1copy1.2 [("added", .prim "v")]) 2 c1copy2.2 =
      expandA c1copy2.1 2 c1copy2.2 ∧
    expandA (hset c1copy2.1 c1copy1.2 [("added", .prim "v")]) 2 0 =
      expandA c1copy2.1 2 0 :=
  c1_cache_shallow_copy_top_level_independent c1heap0 0 [("added", .prim "v")] 2
    c1copy1.1 c1copy1.2 c1copy2.1 c1copy2.2 (by decide) (by decide) rfl rfl
